import Mathlib

/-!
Verification of the similarity-index core of the llm-query-system repository.

The definitions below are a shallow embedding of the Python sources:

* `src/services/vector_store.py` — class `VectorStore` (FAISS `IndexFlatIP`
  plus the parallel `chunk_ids` list): `_load_or_create_index`,
  `add_document_chunks`, `search_similar_chunks`, `remove_document_chunks`,
  `get_index_stats`.
* `src/services/gemini_service.py` — `GeminiService.get_embedding`.
* `src/utils/helpers.py` — `chunk_text_by_sentences`.

Modelling conventions, stated once:

* Machine floats are idealised as exact rationals (`ℚ`).  NumPy/FAISS float32
  inner products become exact `ℚ` dot products.
* The external world is passed in explicitly: the Gemini HTTP API becomes an
  oracle `String → Option (List ℚ)` (`none` is an API failure), the relational
  database lookup used by search becomes `ChunkId → Option DocId`, and the
  chunks a document owns (queried from the database by remove) become an
  explicit `List ChunkId` argument.
* Python statements that can raise are modelled with explicit failure
  injection flags; a returned `true` flag means the Python function terminated
  by an uncaught (re-raised) exception, and the returned state is the state of
  the in-memory index at that moment.
-/

/-- A stored or query vector: NumPy float32 array idealised as a list of
exact rationals. -/
abbrev Vec := List ℚ

/-- An opaque chunk identifier (`DocumentChunk.id` in the database schema). -/
abbrev ChunkId := String

/-- An opaque owning-document identifier (`DocumentChunk.document_id`). -/
abbrev DocId := String

/-- Inner product of two vectors, as computed by `faiss.IndexFlatIP`
(elementwise product, summed). -/
def dot (u v : Vec) : ℚ := ((u.zip v).map fun p => p.1 * p.2).sum

/-- Squared Euclidean norm.  Over `ℚ` this is zero exactly when the true
Euclidean norm `np.linalg.norm` is zero (all entries zero). -/
def sqNorm (v : Vec) : ℚ := (v.map fun x => x * x).sum

/-- The in-memory index state of `VectorStore`: the FAISS index (its
dimension `index.d` and its stored vectors, position-indexed) together with
the parallel Python list `self.chunk_ids`. -/
structure IndexState where
  dim : Nat
  vectors : List Vec
  chunk_ids : List ChunkId
deriving DecidableEq

/-- The spec's parallel-array invariant: the number of stored vectors equals
the number of stored chunk ids. -/
def parallelInvariant (st : IndexState) : Prop :=
  st.vectors.length = st.chunk_ids.length

instance (st : IndexState) : Decidable (parallelInvariant st) := by
  unfold parallelInvariant; infer_instance

/-- The slice of the relational `DocumentChunk` row that the vector store
reads when adding: its id and its text content. -/
structure DocumentChunk where
  id : ChunkId
  content : String
deriving DecidableEq

namespace GeminiService

/-- Embeds `GeminiService.get_embedding` (src/services/gemini_service.py:13-24).
The Gemini API call is the oracle `api`; `none` models `genai.embed_content`
raising.  On failure the code logs and returns `[0.0] * 768` — the zero-vector
fallback — instead of propagating the error. -/
def get_embedding (api : String → Option (List ℚ)) (text : String) : List ℚ :=
  match api text with
  | some embedding => embedding
  | none => List.replicate 768 0

end GeminiService

namespace VectorStore

/-- Embeds the normalisation step of `VectorStore.add_document_chunks`
(src/services/vector_store.py:80-81):
`embedding_array = embedding_array / np.linalg.norm(embedding_array)`.
The exact Euclidean norm is a square root and is not representable in `ℚ`,
so the divisor is the squared norm; it is zero exactly when the real code's
divisor is zero, which is the only aspect the claims observe.  NumPy performs
the division by a zero norm without raising and produces non-finite entries;
over `ℚ` division by zero likewise proceeds without error (yielding zeros).
In both semantics the resulting vector is appended, never rejected. -/
def normalize (v : Vec) : Vec := v.map fun x => x / sqNorm v

/-- Errors from the spec's load-time taxonomy (spec §7); the embedding of
`_load_or_create_index` returns `Except LoadError IndexState` so that the
spec's demanded rejection is statable, even though the source never rejects. -/
inductive LoadError where
  | indexCorrupt
deriving DecidableEq

/-- A persisted index image: the serialized FAISS index (which carries its own
dimension and vectors) plus the pickled `chunk_ids` list. -/
structure PersistedImage where
  dim : Nat
  vectors : List Vec
  ids : List ChunkId
deriving DecidableEq

/-- Embeds `VectorStore._load_or_create_index` (src/services/vector_store.py:28-49).
`dimension` is the process-configured `self.dimension` (768 in source);
`image` is the persisted pair of files if both exist; `readFails` models
`faiss.read_index`/`pickle.load` raising.  The source installs a present image
verbatim with no count or dimension validation, creates a fresh empty index
when the files are absent, and on any exception falls back to a fresh empty
index (lines 45-49) instead of refusing to serve.  Every path returns `ok`. -/
def _load_or_create_index (dimension : Nat) (image : Option PersistedImage)
    (readFails : Bool) : Except LoadError IndexState :=
  if readFails then
    Except.ok ⟨dimension, [], []⟩
  else
    match image with
    | some img => Except.ok ⟨img.dim, img.vectors, img.ids⟩
    | none => Except.ok ⟨dimension, [], []⟩

/-- Embeds `VectorStore.add_document_chunks` (src/services/vector_store.py:69-107).
The per-chunk loop (lines 75-88) computes embeddings via
`GeminiService.get_embedding` (which never raises) and normalises them; the
loop itself only builds local lists and mutates the database session, so any
exception inside it (`dbFails`, e.g. `db.add` raising) leaves the index
untouched.  After the loop, `self.index.add(vectors_array)` raises — with the
index still untouched — when some vector's length differs from `index.d`
(FAISS dimension assertion; a ragged batch likewise raises in `np.array`
beforehand).  On success both parallel arrays are extended; `_save_index`
swallows its own errors; a failing `db.commit` (`commitFails`) then re-raises
with the new entries already in the index.  The `Bool` result is the
exception-propagated flag. -/
def add_document_chunks (st : IndexState) (api : String → Option (List ℚ))
    (chunks : List DocumentChunk) (dbFails : Bool) (commitFails : Bool) :
    IndexState × Bool :=
  if chunks ≠ [] ∧ dbFails then (st, true)
  else
    let vectors := chunks.map fun c => normalize (GeminiService.get_embedding api c.content)
    let ids := chunks.map DocumentChunk.id
    if vectors = [] then (st, false)
    else if vectors.any fun v => v.length ≠ st.dim then (st, true)
    else
      let st1 : IndexState := ⟨st.dim, st.vectors ++ vectors, st.chunk_ids ++ ids⟩
      if commitFails then (st1, true) else (st1, false)

/-- Embeds the rebuild copy loop of `VectorStore.remove_document_chunks`
(src/services/vector_store.py:180-184): for each position `i` of
`self.chunk_ids` in order, positions whose id is in `chunk_ids_to_remove`
(equivalently, `i` in `indices_to_remove`) are skipped, every other position
reconstructs the stored vector `self.index.reconstruct(i)` — which raises
(`none`) when `i` is out of range of the stored vectors — and collects the
surviving (vector, id) pairs in original relative order. -/
def copyAux (vectors : List Vec) (toRemove : List ChunkId) :
    List ChunkId → Nat → Option (List (Vec × ChunkId))
  | [], _ => some []
  | cid :: rest, i =>
    if toRemove.contains cid then copyAux vectors toRemove rest (i + 1)
    else
      match vectors[i]? with
      | none => none
      | some v => (copyAux vectors toRemove rest (i + 1)).map fun l => (v, cid) :: l

/-- Embeds `VectorStore.remove_document_chunks` (src/services/vector_store.py:158-199).
`toRemove` is `chunk_ids_to_remove`, the ids the database reports for the
document.  If it is empty, or no stored id matches (`indices_to_remove`
empty), the state is untouched.  Otherwise the copy loop runs (`copyAux`;
a reconstruct failure re-raises with the state untouched), then the source
executes `self.index = faiss.IndexFlatIP(self.dimension)` — destroying the
old vectors — then, when the survivor list is non-empty, `self.index.add`
(whose failure, `indexAddFails`, re-raises at a point where the vector store
is the fresh empty index while `self.chunk_ids` still holds the old ids), and
finally `self.chunk_ids = remaining_chunk_ids`.  `_save_index` swallows its
own errors. -/
def remove_document_chunks (st : IndexState) (toRemove : List ChunkId)
    (indexAddFails : Bool) : IndexState × Bool :=
  if toRemove = [] then (st, false)
  else if ¬ st.chunk_ids.any (fun cid => toRemove.contains cid) then (st, false)
  else
    match copyAux st.vectors toRemove st.chunk_ids 0 with
    | none => (st, true)
    | some pairs =>
      if pairs.map Prod.fst ≠ [] then
        if indexAddFails then (⟨st.dim, [], st.chunk_ids⟩, true)
        else (⟨st.dim, pairs.map Prod.fst, pairs.map Prod.snd⟩, false)
      else (⟨st.dim, [], pairs.map Prod.snd⟩, false)

/-- The record returned by `VectorStore.get_index_stats`
(src/services/vector_store.py:201-208). -/
structure IndexStats where
  total_vectors : Nat
  dimension : Nat
  index_type : String
  chunk_count : Nat
deriving DecidableEq

/-- Embeds `VectorStore.get_index_stats` (src/services/vector_store.py:201-208):
`total_vectors` is `self.index.ntotal`, `chunk_count` is `len(self.chunk_ids)`. -/
def get_index_stats (st : IndexState) : IndexStats :=
  ⟨st.vectors.length, st.dim, "FAISS IndexFlatIP", st.chunk_ids.length⟩

/-- Embeds the scope-filter test of `search_similar_chunks`
(src/services/vector_store.py:142-144):
`if document_ids and chunk.document_id not in document_ids: continue`.
A candidate is excluded exactly when `document_ids` is truthy (neither `None`
nor the empty list) and the owning document is not in it. -/
def scopeExcludes : Option (List DocId) → DocId → Bool
  | none, _ => false
  | some ds, d => !ds.isEmpty && !ds.contains d

/-- Candidate ordering produced by the FAISS inner-product search: descending
score.  The sort below is stable, so equal scores keep ascending stored-index
order. -/
def candRel (a b : ℚ × Nat) : Prop := b.1 ≤ a.1

instance : DecidableRel candRel := fun a b => inferInstanceAs (Decidable (b.1 ≤ a.1))

instance : IsTotal (ℚ × Nat) candRel := ⟨fun a b => le_total b.1 a.1⟩

instance : IsTrans (ℚ × Nat) candRel := ⟨fun _ _ _ h1 h2 => le_trans h2 h1⟩

/-- Every stored vector scored against the query and ranked by descending
inner product, as `self.index.search` does for a flat inner-product index
(exact brute-force scan). Each element is (score, stored position). -/
def scoredCandidates (vectors : List Vec) (q : Vec) : List (ℚ × Nat) :=
  List.insertionSort candRel (vectors.enum.map fun p => (dot q p.2, p.1))

/-- The `scores, indices` rows returned by `self.index.search(query, m)`
(src/services/vector_store.py:125 with `m = k * 2`): the `m` best-scoring
stored positions in descending score order.  When fewer than `m` vectors are
stored FAISS pads the remaining slots with index `-1`, which the consuming
loop skips immediately; the padding is therefore omitted here. -/
def topCandidates (vectors : List Vec) (q : Vec) (m : Nat) : List (ℚ × Nat) :=
  (scoredCandidates vectors q).take m

/-- Embeds the result-collection loop of `search_similar_chunks`
(src/services/vector_store.py:127-149).  For each candidate in rank order:
below-threshold scores are skipped (`score < similarity_threshold`), the id is
read from `self.chunk_ids[idx]` — an out-of-range index raises, the outer
handler then discards everything and returns the empty list (`none` here) —
the chunk row is fetched from the database (`resolve`; a missing row is
skipped), the scope filter is applied, and the accepted pair is appended;
after an append, the loop stops as soon as `k` results are collected. -/
def searchLoop (resolve : ChunkId → Option DocId) (document_ids : Option (List DocId))
    (threshold : ℚ) (k : Nat) (ids : List ChunkId) :
    List (ℚ × Nat) → List (ChunkId × ℚ) → Option (List (ChunkId × ℚ))
  | [], results => some results
  | (score, idx) :: rest, results =>
    if score < threshold then searchLoop resolve document_ids threshold k ids rest results
    else
      match ids[idx]? with
      | none => none
      | some cid =>
        match resolve cid with
        | none => searchLoop resolve document_ids threshold k ids rest results
        | some docId =>
          if scopeExcludes document_ids docId then
            searchLoop resolve document_ids threshold k ids rest results
          else
            let results1 := results ++ [(cid, score)]
            if k ≤ results1.length then some results1
            else searchLoop resolve document_ids threshold k ids rest results1

/-- Embeds `VectorStore.search_similar_chunks` (src/services/vector_store.py:109-156).
`q` is the already-normalised query embedding (the query normalisation of
lines 120-122 rescales every score uniformly and is performed upstream of the
index).  FAISS raises when the query length differs from `index.d`, and any
exception inside the `try` block makes the function return the empty list
(lines 154-156), not an error. -/
def search_similar_chunks (st : IndexState) (resolve : ChunkId → Option DocId)
    (q : Vec) (k : Nat) (similarity_threshold : ℚ)
    (document_ids : Option (List DocId)) : List (ChunkId × ℚ) :=
  if q.length ≠ st.dim then []
  else
    (searchLoop resolve document_ids similarity_threshold k st.chunk_ids
      (topCandidates st.vectors q (2 * k)) []).getD []

end VectorStore

namespace Helpers

/-- The whitespace characters stripped by Python `str.strip()` and split on by
`str.split()`. -/
def isPySpace (c : Char) : Bool :=
  c = ' ' || c = '\t' || c = '\n' || c = '\r' || c = '\x0b' || c = '\x0c'

/-- The sentence-terminal characters of the regex `[.!?]+` used by
`chunk_text_by_sentences` (src/utils/helpers.py:122). -/
def isSentenceTerm (c : Char) : Bool :=
  c = '.' || c = '!' || c = '?'

/-- Splits a character list at every character satisfying `p`, keeping empty
fragments.  `re.split` with a `+`-quantified class additionally merges
adjacent separators, which only suppresses empty fragments between them; both
call sites below immediately strip fragments and drop the empty ones, after
which the two splitting disciplines coincide fragment for fragment. -/
def pySplitOn (p : Char → Bool) : List Char → List (List Char)
  | [] => [[]]
  | c :: rest =>
    if p c then [] :: pySplitOn p rest
    else
      match pySplitOn p rest with
      | [] => [[c]]
      | l :: ls => (c :: l) :: ls

/-- Python `str.strip()`: remove leading and trailing whitespace. -/
def pyStrip (s : String) : String :=
  ⟨((s.toList.dropWhile isPySpace).reverse.dropWhile isPySpace).reverse⟩

/-- Embeds the sentence extraction of `chunk_text_by_sentences`
(src/utils/helpers.py:121-123):
`sentences = re.split(r'[.!?]+', text)` followed by
`sentences = [s.strip() for s in sentences if s.strip()]`. -/
def pySentences (text : String) : List String :=
  (((pySplitOn isSentenceTerm text.toList).map fun l => pyStrip ⟨l⟩).filter fun s => s ≠ "")

/-- Python `str.split()` with no arguments: split on whitespace, dropping
empty fragments (src/utils/helpers.py:135 `current_chunk.split()`). -/
def pySplitWords (s : String) : List String :=
  (((pySplitOn isPySpace s.toList).map fun l => (⟨l⟩ : String)).filter fun w => w ≠ "")

/-- Embeds the accumulation loop of `chunk_text_by_sentences`
(src/utils/helpers.py:125-148).  `cur` is `current_chunk`, `chunks` the output
list so far.  A sentence whose addition would overflow `max_chunk_size`
flushes the buffer; the next buffer is seeded with the last `overlap // 10`
whitespace-delimited words of the flushed buffer when it has more words than
that (Python `words[-(overlap // 10):]`; with `overlap // 10 = 0` that slice
is the whole word list).  Otherwise the sentence is appended to the buffer
with a separating space.  The final non-empty buffer is flushed stripped. -/
def chunkLoop (max_chunk_size overlap : Nat) :
    List String → String → List String → List String
  | [], cur, chunks => if cur ≠ "" then chunks ++ [pyStrip cur] else chunks
  | s :: rest, cur, chunks =>
    if cur.length + s.length + 1 > max_chunk_size then
      if cur ≠ "" then
        let words := pySplitWords cur
        let cur1 :=
          if words.length > overlap / 10 then
            (String.intercalate " "
              (if overlap / 10 = 0 then words
               else words.drop (words.length - overlap / 10))) ++ " " ++ s
          else s
        chunkLoop max_chunk_size overlap rest cur1 (chunks ++ [pyStrip cur])
      else chunkLoop max_chunk_size overlap rest s chunks
    else
      chunkLoop max_chunk_size overlap rest
        (if cur = "" then s else cur ++ " " ++ s) chunks

/-- Embeds `chunk_text_by_sentences` (src/utils/helpers.py:116-150): empty
text short-circuits to the empty list; otherwise the stripped non-empty
sentence fragments are accumulated by `chunkLoop` starting from an empty
buffer.  The source defaults are `max_chunk_size = 1000`, `overlap = 100`. -/
def chunk_text_by_sentences (text : String) (max_chunk_size : Nat) (overlap : Nat) :
    List String :=
  if text = "" then []
  else chunkLoop max_chunk_size overlap (pySentences text) "" []

end Helpers

namespace VectorStore

theorem normalize_length (v : Vec) : (normalize v).length = v.length := by
  simp [normalize]

theorem pairwise_topCandidates (vectors : List Vec) (q : Vec) (m : Nat) :
    List.Pairwise candRel (topCandidates vectors q m) := by
  have h : List.Sorted candRel (scoredCandidates vectors q) :=
    List.sorted_insertionSort candRel _
  exact List.Pairwise.sublist (List.take_sublist m _) h

theorem mem_topCandidates {vectors : List Vec} {q : Vec} {m : Nat} {c : ℚ × Nat}
    (h : c ∈ topCandidates vectors q m) : ∃ v ∈ vectors, c.1 = dot q v := by
  have h1 : c ∈ scoredCandidates vectors q := (List.take_sublist m _).subset h
  have h2 : c ∈ vectors.enum.map fun p => (dot q p.2, p.1) :=
    (List.perm_insertionSort candRel _).mem_iff.mp h1
  obtain ⟨p, hp, he⟩ := List.mem_map.mp h2
  have hv : p.2 ∈ vectors := List.getElem?_mem (List.mem_enum_iff_getElem?.mp hp)
  exact ⟨p.2, hv, by rw [← he]⟩

section SearchLoopLemmas

variable {resolve : ChunkId → Option DocId} {document_ids : Option (List DocId)}
variable {threshold : ℚ} {k : Nat} {ids : List ChunkId}

theorem searchLoop_length : ∀ (cands : List (ℚ × Nat)) (acc l : List (ChunkId × ℚ)),
    acc.length < k →
    searchLoop resolve document_ids threshold k ids cands acc = some l →
    l.length ≤ k
  | [], acc, l, hk, h => by
    simp only [searchLoop, Option.some.injEq] at h
    subst h
    exact Nat.le_of_lt hk
  | (s, i) :: rest, acc, l, hk, h => by
    simp only [searchLoop] at h
    split at h
    · exact searchLoop_length rest acc l hk h
    · cases hi : ids[i]? with
      | none => rw [hi] at h; exact absurd h (by simp)
      | some cid =>
        rw [hi] at h
        dsimp only at h
        cases hr : resolve cid with
        | none => rw [hr] at h; exact searchLoop_length rest acc l hk h
        | some docId =>
          rw [hr] at h
          dsimp only at h
          split at h
          · exact searchLoop_length rest acc l hk h
          · split at h
            · simp only [Option.some.injEq] at h
              subst h
              simp only [List.length_append, List.length_cons, List.length_nil]
              omega
            · refine searchLoop_length rest _ l ?_ h
              rename_i hstop
              simp only [List.length_append, List.length_cons, List.length_nil] at hstop ⊢
              omega

theorem searchLoop_mem : ∀ (cands : List (ℚ × Nat)) (acc l : List (ChunkId × ℚ)),
    searchLoop resolve document_ids threshold k ids cands acc = some l →
    ∀ p ∈ l, p ∈ acc ∨ (threshold ≤ p.2 ∧ ∃ j, (p.2, j) ∈ cands ∧ ids[j]? = some p.1)
  | [], acc, l, h, p, hp => by
    simp only [searchLoop, Option.some.injEq] at h
    subst h
    exact Or.inl hp
  | (s, i) :: rest, acc, l, h, p, hp => by
    simp only [searchLoop] at h
    split at h
    · rcases searchLoop_mem rest acc l h p hp with h1 | ⟨h1, j, hj, hj2⟩
      · exact Or.inl h1
      · exact Or.inr ⟨h1, j, List.mem_cons_of_mem _ hj, hj2⟩
    · rename_i hthr
      cases hi : ids[i]? with
      | none => rw [hi] at h; exact absurd h (by simp)
      | some cid =>
        rw [hi] at h
        dsimp only at h
        cases hr : resolve cid with
        | none =>
          rw [hr] at h
          rcases searchLoop_mem rest acc l h p hp with h1 | ⟨h1, j, hj, hj2⟩
          · exact Or.inl h1
          · exact Or.inr ⟨h1, j, List.mem_cons_of_mem _ hj, hj2⟩
        | some docId =>
          rw [hr] at h
          dsimp only at h
          split at h
          · rcases searchLoop_mem rest acc l h p hp with h1 | ⟨h1, j, hj, hj2⟩
            · exact Or.inl h1
            · exact Or.inr ⟨h1, j, List.mem_cons_of_mem _ hj, hj2⟩
          · have haccept : ∀ p2, p2 ∈ acc ++ [(cid, s)] →
                p2 ∈ acc ∨ (threshold ≤ p2.2 ∧
                  ∃ j, (p2.2, j) ∈ (s, i) :: rest ∧ ids[j]? = some p2.1) := by
              intro p2 hp2
              rcases List.mem_append.mp hp2 with h2 | h2
              · exact Or.inl h2
              · have : p2 = (cid, s) := by simpa using h2
                subst this
                exact Or.inr ⟨le_of_not_lt hthr, i, List.mem_cons_self _ _, hi⟩
            split at h
            · simp only [Option.some.injEq] at h
              subst h
              exact haccept p hp
            · rcases searchLoop_mem rest _ l h p hp with h1 | ⟨h1, j, hj, hj2⟩
              · exact haccept p h1
              · exact Or.inr ⟨h1, j, List.mem_cons_of_mem _ hj, hj2⟩

theorem searchLoop_pairwise : ∀ (cands : List (ℚ × Nat)) (acc l : List (ChunkId × ℚ)),
    List.Pairwise candRel cands →
    List.Pairwise (fun p p2 => p2.2 ≤ p.2) acc →
    (∀ p ∈ acc, ∀ c ∈ cands, c.1 ≤ p.2) →
    searchLoop resolve document_ids threshold k ids cands acc = some l →
    List.Pairwise (fun p p2 => p2.2 ≤ p.2) l
  | [], acc, l, _, ha, _, h => by
    simp only [searchLoop, Option.some.injEq] at h
    subst h
    exact ha
  | (s, i) :: rest, acc, l, hc, ha, hab, h => by
    simp only [searchLoop] at h
    have hab1 : ∀ p ∈ acc, ∀ c ∈ rest, c.1 ≤ p.2 := fun p hp c hcm =>
      hab p hp c (List.mem_cons_of_mem _ hcm)
    split at h
    · exact searchLoop_pairwise rest acc l hc.of_cons ha hab1 h
    · cases hi : ids[i]? with
      | none => rw [hi] at h; exact absurd h (by simp)
      | some cid =>
        rw [hi] at h
        dsimp only at h
        cases hr : resolve cid with
        | none => rw [hr] at h; exact searchLoop_pairwise rest acc l hc.of_cons ha hab1 h
        | some docId =>
          rw [hr] at h
          dsimp only at h
          split at h
          · exact searchLoop_pairwise rest acc l hc.of_cons ha hab1 h
          · have ha1 : List.Pairwise (fun p p2 => p2.2 ≤ p.2) (acc ++ [(cid, s)]) := by
              refine List.pairwise_append.mpr ⟨ha, List.pairwise_singleton _ _, ?_⟩
              intro p hp y hy
              have : y = (cid, s) := by simpa using hy
              subst this
              exact hab p hp (s, i) (List.mem_cons_self _ _)
            have hab2 : ∀ p ∈ acc ++ [(cid, s)], ∀ c ∈ rest, c.1 ≤ p.2 := by
              intro p hp c hcm
              rcases List.mem_append.mp hp with h2 | h2
              · exact hab1 p h2 c hcm
              · have : p = (cid, s) := by simpa using h2
                subst this
                exact List.rel_of_pairwise_cons hc hcm
            split at h
            · simp only [Option.some.injEq] at h
              subst h
              exact ha1
            · exact searchLoop_pairwise rest _ l hc.of_cons ha1 hab2 h

theorem searchLoop_skip_all : ∀ (cands : List (ℚ × Nat)) (acc : List (ChunkId × ℚ)),
    (∀ c ∈ cands, c.1 < threshold) →
    searchLoop resolve document_ids threshold k ids cands acc = some acc
  | [], _, _ => rfl
  | (s, i) :: rest, acc, hlt => by
    simp only [searchLoop]
    rw [if_pos (hlt (s, i) (List.mem_cons_self _ _))]
    exact searchLoop_skip_all rest acc fun c hcm => hlt c (List.mem_cons_of_mem _ hcm)

theorem searchLoop_scope_nil : ∀ (cands : List (ℚ × Nat)) (acc : List (ChunkId × ℚ)),
    searchLoop resolve (some []) threshold k ids cands acc
      = searchLoop resolve none threshold k ids cands acc
  | [], _ => rfl
  | (s, i) :: rest, acc => by
    simp only [searchLoop]
    split
    · exact searchLoop_scope_nil rest acc
    · cases ids[i]? with
      | none => rfl
      | some cid =>
        dsimp only
        cases resolve cid with
        | none => exact searchLoop_scope_nil rest acc
        | some docId =>
          dsimp only
          simp only [scopeExcludes, List.isEmpty_nil, Bool.not_true, Bool.false_and,
            Bool.false_eq_true, if_false]
          split
          · rfl
          · exact searchLoop_scope_nil rest _

end SearchLoopLemmas

theorem search_results_facts (st : IndexState) (resolve : ChunkId → Option DocId)
    (q : Vec) (k : Nat) (thr : ℚ) (document_ids : Option (List DocId)) :
    ∀ p ∈ search_similar_chunks st resolve q k thr document_ids,
      thr ≤ p.2 ∧ p.1 ∈ st.chunk_ids ∧ ∃ v ∈ st.vectors, p.2 = dot q v := by
  intro p hp
  unfold search_similar_chunks at hp
  split at hp
  · simp at hp
  · cases hres : searchLoop resolve document_ids thr k st.chunk_ids
        (topCandidates st.vectors q (2 * k)) [] with
    | none => rw [hres] at hp; simp at hp
    | some l =>
      rw [hres] at hp
      simp only [Option.getD_some] at hp
      rcases searchLoop_mem _ _ _ hres p hp with h1 | ⟨h1, j, hj, hj2⟩
      · simp at h1
      · obtain ⟨v, hv, hsc⟩ := mem_topCandidates hj
        exact ⟨h1, List.getElem?_mem hj2, v, hv, hsc⟩

theorem search_results_pairwise (st : IndexState) (resolve : ChunkId → Option DocId)
    (q : Vec) (k : Nat) (thr : ℚ) (document_ids : Option (List DocId)) :
    List.Pairwise (fun p p2 => p2.2 ≤ p.2)
      (search_similar_chunks st resolve q k thr document_ids) := by
  unfold search_similar_chunks
  split
  · exact List.Pairwise.nil
  · cases hres : searchLoop resolve document_ids thr k st.chunk_ids
        (topCandidates st.vectors q (2 * k)) [] with
    | none => simp
    | some l =>
      simp only [Option.getD_some]
      exact searchLoop_pairwise _ _ _ (pairwise_topCandidates st.vectors q (2 * k))
        List.Pairwise.nil (by simp) hres

theorem search_results_length (st : IndexState) (resolve : ChunkId → Option DocId)
    (q : Vec) (k : Nat) (thr : ℚ) (document_ids : Option (List DocId)) :
    (search_similar_chunks st resolve q k thr document_ids).length ≤ k := by
  unfold search_similar_chunks
  split
  · simp
  · rcases Nat.eq_zero_or_pos k with hk | hk
    · subst hk
      simp only [Nat.mul_zero, topCandidates, List.take_zero]
      rw [show searchLoop resolve document_ids thr 0 st.chunk_ids [] [] = some [] from rfl]
      simp
    · cases hres : searchLoop resolve document_ids thr k st.chunk_ids
          (topCandidates st.vectors q (2 * k)) [] with
      | none => simp
      | some l =>
        simp only [Option.getD_some]
        exact searchLoop_length _ _ _ (by simpa using hk) hres

theorem search_below_threshold_empty (st : IndexState) (resolve : ChunkId → Option DocId)
    (q : Vec) (k : Nat) (thr : ℚ) (document_ids : Option (List DocId))
    (hbelow : ∀ v ∈ st.vectors, dot q v < thr) :
    search_similar_chunks st resolve q k thr document_ids = [] := by
  unfold search_similar_chunks
  split
  · rfl
  · rw [searchLoop_skip_all _ _ fun c hcm => by
      obtain ⟨v, hv, hsc⟩ := mem_topCandidates hcm
      exact hsc ▸ hbelow v hv]
    rfl

/-- C1.  Amended: for every index state, query, `k`, threshold and scope
filter, `search_similar_chunks` returns at most `k` (ChunkId, score) pairs
whose scores are in descending (non-increasing, not necessarily strictly
decreasing) order; every candidate whose score is strictly below the
threshold is excluded; and when no stored vector's score clears the
threshold the result is the empty list, returned normally rather than as an
error. -/
theorem search_bounded_sorted_thresholded (st : IndexState)
    (resolve : ChunkId → Option DocId) (q : Vec) (k : Nat) (thr : ℚ)
    (document_ids : Option (List DocId)) :
    (search_similar_chunks st resolve q k thr document_ids).length ≤ k
    ∧ List.Pairwise (fun p p2 => p2.2 ≤ p.2)
        (search_similar_chunks st resolve q k thr document_ids)
    ∧ (∀ p ∈ search_similar_chunks st resolve q k thr document_ids, thr ≤ p.2)
    ∧ ((∀ v ∈ st.vectors, dot q v < thr) →
        search_similar_chunks st resolve q k thr document_ids = []) :=
  ⟨search_results_length st resolve q k thr document_ids,
   search_results_pairwise st resolve q k thr document_ids,
   fun p hp => (search_results_facts st resolve q k thr document_ids p hp).1,
   search_below_threshold_empty st resolve q k thr document_ids⟩

/-- C1, counterexample to the claim as stated: with two identical stored
vectors both matching the query, the two returned scores are equal, so the
result is not strictly descending by score. -/
theorem search_strict_descent_fails :
    search_similar_chunks ⟨2, [[1, 0], [1, 0]], ["a", "b"]⟩
        (fun _ => some "d1") [1, 0] 2 0 none = [("a", 1), ("b", 1)]
    ∧ ¬ List.Pairwise (fun p p2 : ChunkId × ℚ => p2.2 < p.2)
        (search_similar_chunks ⟨2, [[1, 0], [1, 0]], ["a", "b"]⟩
          (fun _ => some "d1") [1, 0] 2 0 none) := by
  have h : search_similar_chunks ⟨2, [[1, 0], [1, 0]], ["a", "b"]⟩
      (fun _ => some "d1") [1, 0] 2 0 none = [("a", 1), ("b", 1)] := by
    norm_num [search_similar_chunks, topCandidates, scoredCandidates, searchLoop, dot,
      candRel, scopeExcludes, List.insertionSort, List.orderedInsert, List.enum,
      List.enumFrom, List.getElem_cons_succ, List.getElem_cons_zero]
    rfl
  refine ⟨h, ?_⟩
  rw [h]
  norm_num [List.pairwise_cons]

/-- C1, witness: the amended theorem applied to a concrete index whose only
stored vector scores below the threshold, giving the empty result. -/
theorem search_bounded_sorted_thresholded_witness :
    search_similar_chunks ⟨2, [[1, 0]], ["a"]⟩ (fun _ => some "d1")
      [0, 1] 5 (1 / 2) none = [] :=
  (search_bounded_sorted_thresholded ⟨2, [[1, 0]], ["a"]⟩ (fun _ => some "d1")
    [0, 1] 5 (1 / 2) none).2.2.2 (by norm_num [dot])

theorem copyAux_eq_filter (toRemove : List ChunkId) :
    ∀ (ids : List ChunkId) (vectors : List Vec) (i : Nat),
    i + ids.length ≤ vectors.length →
    copyAux vectors toRemove ids i
      = some ((((vectors.drop i).take ids.length).zip ids).filter
          fun p => !toRemove.contains p.2)
  | [], vectors, i, _ => by simp [copyAux]
  | cid :: rest, vectors, i, hlen => by
    have hi : i < vectors.length := by
      simp only [List.length_cons] at hlen
      omega
    have hrec : (i + 1) + rest.length ≤ vectors.length := by
      simp only [List.length_cons] at hlen
      omega
    have hdrop : vectors.drop i = vectors[i] :: vectors.drop (i + 1) :=
      List.drop_eq_getElem_cons hi
    simp only [copyAux]
    split
    · rename_i hcont
      rw [copyAux_eq_filter toRemove rest vectors (i + 1) hrec, hdrop,
        List.length_cons, List.take_succ_cons, List.zip_cons_cons,
        List.filter_cons_of_neg (by simpa using hcont)]
    · rename_i hcont
      rw [List.getElem?_eq_getElem hi]
      dsimp only
      rw [copyAux_eq_filter toRemove rest vectors (i + 1) hrec, hdrop,
        List.length_cons, List.take_succ_cons, List.zip_cons_cons,
        List.filter_cons_of_pos (by simpa using hcont)]
      rfl

/-- The state the spec's remove contract prescribes: exactly the entries
whose id is not in `toRemove`, kept in original relative order. -/
def removedFilter (st : IndexState) (toRemove : List ChunkId) : IndexState :=
  ⟨st.dim,
   ((st.vectors.zip st.chunk_ids).filter fun p => !toRemove.contains p.2).map Prod.fst,
   ((st.vectors.zip st.chunk_ids).filter fun p => !toRemove.contains p.2).map Prod.snd⟩

theorem remove_characterization (st : IndexState) (toRemove : List ChunkId)
    (indexAddFails : Bool) (hinv : parallelInvariant st) :
    ((remove_document_chunks st toRemove indexAddFails).2 = false →
        (remove_document_chunks st toRemove indexAddFails).1
          = removedFilter st toRemove)
    ∧ ((remove_document_chunks st toRemove indexAddFails).2 = true →
        indexAddFails = true
        ∧ (remove_document_chunks st toRemove indexAddFails).1
            = ⟨st.dim, [], st.chunk_ids⟩) := by
  obtain ⟨dim, vecs, cids⟩ := st
  simp only [parallelInvariant] at hinv
  have hfull : ∀ (hkeep : ∀ p ∈ vecs.zip cids, (!toRemove.contains p.2) = true),
      removedFilter ⟨dim, vecs, cids⟩ toRemove = ⟨dim, vecs, cids⟩ := by
    intro hkeep
    simp only [removedFilter, List.filter_eq_self.mpr hkeep]
    rw [List.map_fst_zip _ _ (le_of_eq hinv), List.map_snd_zip _ _ (ge_of_eq hinv)]
  unfold remove_document_chunks
  split
  · rename_i h0
    subst h0
    refine ⟨fun _ => ?_, fun h => by simp at h⟩
    exact (hfull (by simp)).symm
  · split
    · rename_i hnone
      refine ⟨fun _ => ?_, fun h => by simp at h⟩
      refine (hfull ?_).symm
      intro p hp
      have h2 : p.2 ∈ cids := (List.of_mem_zip hp).2
      simp only [List.any_eq_true, not_exists, not_and] at hnone
      push_neg at hnone
      simpa using hnone p.2 h2
    · have hc := copyAux_eq_filter toRemove cids vecs 0 (by simpa using le_of_eq hinv.symm)
      rw [List.drop_zero, List.take_of_length_le (le_of_eq hinv)] at hc
      rw [hc]
      dsimp only
      split
      · split
        · rename_i haf
          exact ⟨fun h => by simp at h, fun _ => ⟨haf, rfl⟩⟩
        · exact ⟨fun _ => rfl, fun h => by simp at h⟩
      · rename_i hempty
        rw [not_not] at hempty
        refine ⟨fun _ => ?_, fun h => by simp at h⟩
        simp only [removedFilter]
        rw [hempty]

/-- C2.  Amended: for every index state satisfying the parallel-array
invariant, a `remove_document_chunks` call that returns normally replaces
the state with exactly the non-matching entries in their original relative
order (and a failure during the copy phase leaves the prior state
untouched), but a failure that propagates out of the rebuild can only be a
failure of the final index-add step, and it leaves the vector store empty
while the id list still holds all prior ids — the prior state is then
neither fully replaced nor left untouched. -/
theorem remove_replaces_or_clobbers (st : IndexState) (toRemove : List ChunkId)
    (indexAddFails : Bool) (hinv : parallelInvariant st) :
    ((remove_document_chunks st toRemove indexAddFails).2 = false →
        (remove_document_chunks st toRemove indexAddFails).1
          = removedFilter st toRemove)
    ∧ ((remove_document_chunks st toRemove indexAddFails).2 = true →
        indexAddFails = true
        ∧ (remove_document_chunks st toRemove indexAddFails).1
            = ⟨st.dim, [], st.chunk_ids⟩) :=
  remove_characterization st toRemove indexAddFails hinv

/-- C2, counterexample to the claim as stated: when the index-add step of the
rebuild fails, the resulting state has an empty vector store under the intact
prior id list — it is neither the filtered replacement nor the untouched
prior state. -/
theorem remove_midfail_breaks_atomicity :
    remove_document_chunks ⟨1, [[1], [2]], ["a", "b"]⟩ ["a"] true
      = (⟨1, [], ["a", "b"]⟩, true)
    ∧ (⟨1, [], ["a", "b"]⟩ : IndexState)
        ≠ removedFilter ⟨1, [[1], [2]], ["a", "b"]⟩ ["a"]
    ∧ (⟨1, [], ["a", "b"]⟩ : IndexState) ≠ ⟨1, [[1], [2]], ["a", "b"]⟩ := by
  refine ⟨?_, ?_, ?_⟩ <;> decide

/-- C2, witness: the amended theorem applied to a concrete successful
removal. -/
theorem remove_replaces_or_clobbers_witness :
    (remove_document_chunks ⟨1, [[1], [2]], ["a", "b"]⟩ ["a"] false).1
      = removedFilter ⟨1, [[1], [2]], ["a", "b"]⟩ ["a"] :=
  (remove_replaces_or_clobbers ⟨1, [[1], [2]], ["a", "b"]⟩ ["a"] false
    (by decide)).1 (by decide)

/-- C5.  Amended: index creation establishes the parallel-array invariant,
`add_document_chunks` preserves it in every outcome (success or any failure),
and `remove_document_chunks` preserves it whenever it returns normally; but
`_load_or_create_index` merely copies the persisted counts without
validation, so a loaded state satisfies the invariant only when the persisted
image itself does. -/
theorem operations_preserve_parallel_invariant :
    (∀ dimension : Nat, parallelInvariant ⟨dimension, [], []⟩)
    ∧ (∀ (st : IndexState) (api : String → Option (List ℚ))
        (chunks : List DocumentChunk) (dbFails commitFails : Bool),
        parallelInvariant st →
        parallelInvariant (add_document_chunks st api chunks dbFails commitFails).1)
    ∧ (∀ (st : IndexState) (toRemove : List ChunkId) (indexAddFails : Bool),
        parallelInvariant st →
        (remove_document_chunks st toRemove indexAddFails).2 = false →
        parallelInvariant (remove_document_chunks st toRemove indexAddFails).1)
    ∧ (∀ (dimension : Nat) (image : Option PersistedImage) (readFails : Bool)
        (st : IndexState),
        _load_or_create_index dimension image readFails = Except.ok st →
        (∀ img, image = some img → img.vectors.length = img.ids.length) →
        parallelInvariant st) := by
  refine ⟨fun _ => rfl, ?_, ?_, ?_⟩
  · intro st api chunks dbFails commitFails hinv
    unfold add_document_chunks
    split
    · exact hinv
    · dsimp only
      split
      · exact hinv
      · split
        · exact hinv
        · split
          all_goals
            simp only [parallelInvariant, List.length_append, List.length_map] at hinv ⊢
          all_goals omega
  · intro st toRemove indexAddFails hinv hok
    rw [(remove_characterization st toRemove indexAddFails hinv).1 hok]
    simp [removedFilter, parallelInvariant]
  · intro dimension image readFails st hload himg
    unfold _load_or_create_index at hload
    split at hload
    · cases hload
      rfl
    · cases image with
      | none =>
        cases hload
        rfl
      | some img =>
        cases hload
        exact himg img rfl

/-- C5, counterexample to the claim as stated: loading a persisted image with
one vector but two ids succeeds and yields a state violating the invariant. -/
theorem load_mismatch_breaks_invariant :
    _load_or_create_index 768 (some ⟨768, [[1]], ["a", "b"]⟩) false
      = Except.ok ⟨768, [[1]], ["a", "b"]⟩
    ∧ ¬ parallelInvariant ⟨768, [[1]], ["a", "b"]⟩ :=
  ⟨rfl, by decide⟩

/-- C5, witness: the amended theorem's add clause applied to a concrete
state and batch. -/
theorem operations_preserve_parallel_invariant_witness :
    parallelInvariant (add_document_chunks ⟨1, [[1]], ["a"]⟩
      (fun _ => some [2]) [⟨"b", "t"⟩] false false).1 :=
  operations_preserve_parallel_invariant.2.1 ⟨1, [[1]], ["a"]⟩
    (fun _ => some [2]) [⟨"b", "t"⟩] false false (by decide)

/-- C4.  Amended: `_load_or_create_index` never rejects anything: a present
persisted image is installed verbatim regardless of whether its vector count
matches its id count or its dimension matches the configured one; a read
exception falls back to a fresh empty index instead of refusing to serve;
and a missing image silently creates a fresh empty index.  Every path
returns `ok`, never an `IndexCorrupt` error. -/
theorem load_never_rejects :
    ∀ (dimension : Nat) (img : PersistedImage) (image : Option PersistedImage),
    _load_or_create_index dimension (some img) false
        = Except.ok ⟨img.dim, img.vectors, img.ids⟩
    ∧ _load_or_create_index dimension image true = Except.ok ⟨dimension, [], []⟩
    ∧ _load_or_create_index dimension none false = Except.ok ⟨dimension, [], []⟩ :=
  fun _ _ image => ⟨rfl, by cases image <;> rfl, rfl⟩

/-- C4, counterexample to the claim as stated: a persisted image whose vector
count (1) disagrees with its id count (2) and whose dimension (5) differs
from the configured dimension (768) loads successfully instead of failing
with IndexCorrupt. -/
theorem load_accepts_corrupt_image :
    _load_or_create_index 768 (some ⟨5, [[1]], ["a", "b"]⟩) false
      = Except.ok ⟨5, [[1]], ["a", "b"]⟩ := rfl

set_option maxRecDepth 4000 in
/-- C3, evaluation at the failing input: when the embedding API fails for the
only chunk of the batch, `add_document_chunks` does not fail — it inserts the
entry built from the fabricated zero vector, so an entry from the failed call
is retained and the index is changed. -/
theorem add_retains_entry_despite_embedding_failure :
    (add_document_chunks ⟨768, [], []⟩ (fun _ => none)
        [⟨"c1", "hello"⟩] false false).2 = false
    ∧ (add_document_chunks ⟨768, [], []⟩ (fun _ => none)
        [⟨"c1", "hello"⟩] false false).1.chunk_ids = ["c1"]
    ∧ (add_document_chunks ⟨768, [], []⟩ (fun _ => none)
        [⟨"c1", "hello"⟩] false false).1.vectors.length = 1 := by
  refine ⟨?_, ?_, ?_⟩ <;> decide

set_option maxRecDepth 4000 in
/-- C6, evaluation at the failing input: a vector of zero Euclidean norm
(the all-zero 768-vector) is normalised by dividing by its zero norm and is
inserted into the index without any error — no `InvalidVector` rejection
exists in the code. -/
theorem add_inserts_zero_norm_vector :
    sqNorm (List.replicate 768 (0 : ℚ)) = 0
    ∧ (add_document_chunks ⟨768, [], []⟩ (fun _ => some (List.replicate 768 0))
        [⟨"c1", "x"⟩] false false).2 = false
    ∧ (add_document_chunks ⟨768, [], []⟩ (fun _ => some (List.replicate 768 0))
        [⟨"c1", "x"⟩] false false).1.chunk_ids = ["c1"]
    ∧ (add_document_chunks ⟨768, [], []⟩ (fun _ => some (List.replicate 768 0))
        [⟨"c1", "x"⟩] false false).1.vectors.length = 1 := by
  refine ⟨by simp [sqNorm, List.map_replicate, List.sum_replicate], ?_, ?_, ?_⟩ <;> decide

theorem add_success (st : IndexState) (api : String → Option (List ℚ))
    (chunks : List DocumentChunk) (h1 : chunks ≠ [])
    (h2 : ∀ c ∈ chunks, (GeminiService.get_embedding api c.content).length = st.dim) :
    add_document_chunks st api chunks false false
      = (⟨st.dim,
          st.vectors ++ chunks.map fun c => normalize (GeminiService.get_embedding api c.content),
          st.chunk_ids ++ chunks.map DocumentChunk.id⟩, false) := by
  unfold add_document_chunks
  split
  · rename_i h
    exact absurd h (by simp)
  · dsimp only
    split
    · rename_i h
      exact absurd h (by simpa using h1)
    · split
      · rename_i h
        rw [List.any_eq_true] at h
        obtain ⟨v, hv, hdec⟩ := h
        obtain ⟨ch, hch, hvv⟩ := List.mem_map.mp hv
        subst hvv
        simp [normalize_length, h2 ch hch] at hdec
      · split
        · rename_i h
          exact absurd h (by simp)
        · rfl

theorem add_then_remove_restores (st : IndexState) (api : String → Option (List ℚ))
    (chunks : List DocumentChunk)
    (hinv : parallelInvariant st)
    (hfresh : ∀ c ∈ chunks, c.id ∉ st.chunk_ids)
    (hdim : ∀ c ∈ chunks, (GeminiService.get_embedding api c.content).length = st.dim) :
    (remove_document_chunks (add_document_chunks st api chunks false false).1
      (chunks.map DocumentChunk.id) false).1 = st := by
  cases chunks with
  | nil => simp [add_document_chunks, remove_document_chunks]
  | cons c cs =>
    rw [add_success st api (c :: cs) (by simp) hdim]
    have hinv1 : parallelInvariant
        (⟨st.dim,
          st.vectors ++ (c :: cs).map fun ch => normalize (GeminiService.get_embedding api ch.content),
          st.chunk_ids ++ (c :: cs).map DocumentChunk.id⟩ : IndexState) := by
      simp only [parallelInvariant, List.length_append, List.length_map] at hinv ⊢
      omega
    have hchar := remove_characterization _ ((c :: cs).map DocumentChunk.id) false hinv1
    cases hb : (remove_document_chunks
        (⟨st.dim,
          st.vectors ++ (c :: cs).map fun ch => normalize (GeminiService.get_embedding api ch.content),
          st.chunk_ids ++ (c :: cs).map DocumentChunk.id⟩ : IndexState)
        ((c :: cs).map DocumentChunk.id) false).2 with
    | true => exact absurd (hchar.2 hb).1 (by simp)
    | false =>
      rw [hchar.1 hb]
      have hkeep : ∀ p ∈ st.vectors.zip st.chunk_ids,
          (!((c :: cs).map DocumentChunk.id).contains p.2) = true := by
        intro p hp
        have h2 : p.2 ∈ st.chunk_ids := (List.of_mem_zip hp).2
        have hnot : p.2 ∉ (c :: cs).map DocumentChunk.id := by
          intro hmem
          obtain ⟨ch, hch, hid⟩ := List.mem_map.mp hmem
          exact hfresh ch hch (by rwa [hid])
        simpa using hnot
      have hdrop : ∀ p ∈ ((c :: cs).map fun ch =>
            normalize (GeminiService.get_embedding api ch.content)).zip
            ((c :: cs).map DocumentChunk.id),
          ¬ ((!((c :: cs).map DocumentChunk.id).contains p.2) = true) := by
        intro p hp hcontra
        have h2 : p.2 ∈ (c :: cs).map DocumentChunk.id := (List.of_mem_zip hp).2
        rw [Bool.not_eq_true'] at hcontra
        have hcont : ((c :: cs).map DocumentChunk.id).contains p.2 = true :=
          List.elem_eq_true_of_mem h2
        rw [hcontra] at hcont
        exact Bool.false_ne_true hcont
      simp only [removedFilter, List.zip_append hinv, List.filter_append,
        List.filter_eq_self.mpr hkeep, List.filter_eq_nil_iff.mpr hdrop,
        List.append_nil]
      rw [List.map_fst_zip _ _ (le_of_eq hinv), List.map_snd_zip _ _ (ge_of_eq hinv)]

/-- C8.  Amended: provided none of the batch's chunk ids already occurs in
the index, and the add and remove both complete without failure with
embeddings of the configured dimension, adding the batch and then
immediately removing those same chunk ids restores the stats vector count to
its pre-add value (indeed the whole state), and any later search never
returns a removed chunk id.  Without the freshness proviso the removal also
deletes the pre-existing homonymous entries and the count drops below its
pre-add value. -/
theorem add_remove_roundtrip (st : IndexState) (api : String → Option (List ℚ))
    (chunks : List DocumentChunk)
    (hinv : parallelInvariant st)
    (hfresh : ∀ c ∈ chunks, c.id ∉ st.chunk_ids)
    (hdim : ∀ c ∈ chunks, (GeminiService.get_embedding api c.content).length = st.dim) :
    (get_index_stats (remove_document_chunks
        (add_document_chunks st api chunks false false).1
        (chunks.map DocumentChunk.id) false).1).total_vectors
      = (get_index_stats st).total_vectors
    ∧ ∀ (resolve : ChunkId → Option DocId) (q : Vec) (k : Nat) (thr : ℚ)
        (document_ids : Option (List DocId)) (p : ChunkId × ℚ),
        p ∈ search_similar_chunks (remove_document_chunks
            (add_document_chunks st api chunks false false).1
            (chunks.map DocumentChunk.id) false).1 resolve q k thr document_ids →
        p.1 ∉ chunks.map DocumentChunk.id := by
  have hres := add_then_remove_restores st api chunks hinv hfresh hdim
  rw [hres]
  refine ⟨rfl, ?_⟩
  intro resolve q k thr document_ids p hp hmem
  obtain ⟨ch, hch, hid⟩ := List.mem_map.mp hmem
  have h1 : p.1 ∈ st.chunk_ids :=
    (search_results_facts st resolve q k thr document_ids p hp).2.1
  exact hfresh ch hch (by rwa [hid])

/-- C8, counterexample to the claim as stated: if an added chunk id already
occurs in the index, removing the batch ids also removes the pre-existing
entry, so the stats vector count drops to 0 instead of returning to its
pre-add value 1. -/
theorem add_remove_duplicate_id_drops_count :
    (get_index_stats (remove_document_chunks
        (add_document_chunks ⟨1, [[1]], ["a"]⟩ (fun _ => some [2])
          [⟨"a", "t"⟩] false false).1
        ["a"] false).1).total_vectors = 0
    ∧ (get_index_stats ⟨1, [[1]], ["a"]⟩).total_vectors = 1 := by
  refine ⟨?_, ?_⟩ <;> decide

/-- C8, witness: the amended theorem applied to a concrete fresh-id batch;
the count returns to its pre-add value. -/
theorem add_remove_roundtrip_witness :
    (get_index_stats (remove_document_chunks
        (add_document_chunks ⟨1, [[1]], ["a"]⟩ (fun _ => some [2])
          [⟨"b", "t"⟩] false false).1
        (([⟨"b", "t"⟩] : List DocumentChunk).map DocumentChunk.id) false).1).total_vectors
      = (get_index_stats ⟨1, [[1]], ["a"]⟩).total_vectors :=
  (add_remove_roundtrip ⟨1, [[1]], ["a"]⟩ (fun _ => some [2]) [⟨"b", "t"⟩]
    (by decide) (by decide) (by decide)).1

/-- C10: a scope filter supplied as the empty list of document ids is falsy
in the source's truthiness test, so it applies no filtering at all: the
results equal those of an unscoped search for every index state and query. -/
theorem search_scope_empty_list_unfiltered (st : IndexState)
    (resolve : ChunkId → Option DocId) (q : Vec) (k : Nat) (thr : ℚ) :
    search_similar_chunks st resolve q k thr (some [])
      = search_similar_chunks st resolve q k thr none := by
  unfold search_similar_chunks
  split
  · rfl
  · rw [searchLoop_scope_nil]

end VectorStore

/-- C7, evaluation of the failing path: whenever the embedding API call
fails, `GeminiService.get_embedding` does not propagate the failure — its
return type has no error outcome at all — and instead substitutes the
fabricated zero vector `[0.0] * 768`. -/
theorem get_embedding_substitutes_zero_vector :
    ∀ (api : String → Option (List ℚ)) (text : String),
    api text = none →
    GeminiService.get_embedding api text = List.replicate 768 0 := by
  intro api text h
  unfold GeminiService.get_embedding
  rw [h]

/-- C7, witness: the substitution observed at a concrete failing call. -/
theorem get_embedding_substitutes_zero_vector_witness :
    GeminiService.get_embedding (fun _ => none) "hello" = List.replicate 768 0 :=
  get_embedding_substitutes_zero_vector (fun _ => none) "hello" rfl

namespace Helpers

theorem pySplitOn_no_match (p : Char → Bool) :
    ∀ l : List Char, (∀ c ∈ l, p c = false) → pySplitOn p l = [l]
  | [], _ => rfl
  | c :: rest, h => by
    have hc : p c = false := h c (List.mem_cons_self _ _)
    have hrest := pySplitOn_no_match p rest fun c2 hc2 => h c2 (List.mem_cons_of_mem _ hc2)
    simp [pySplitOn, hc, hrest]

/-- C9: the chunker applied to empty text returns the empty sequence, and
applied to a text that is a single sentence — no sentence-terminal
punctuation, no surrounding whitespace — shorter than the maximum chunk size
returns exactly one chunk equal, character for character, to that
sentence. -/
theorem chunker_empty_and_single_sentence (m o : Nat) (t : String)
    (hterm : ∀ c ∈ t.toList, isSentenceTerm c = false)
    (hstrip : pyStrip t = t)
    (hne : t ≠ "")
    (hlen : t.length + 1 ≤ m) :
    chunk_text_by_sentences "" m o = []
    ∧ chunk_text_by_sentences t m o = [t] := by
  constructor
  · simp [chunk_text_by_sentences]
  · have hmk : (⟨t.toList⟩ : String) = t := by
      cases t
      rfl
    have hsent : pySentences t = [t] := by
      unfold pySentences
      rw [pySplitOn_no_match isSentenceTerm t.toList hterm]
      simp [hmk, hstrip, hne]
    unfold chunk_text_by_sentences
    rw [if_neg hne, hsent]
    show chunkLoop m o [t] "" [] = [t]
    simp only [chunkLoop]
    rw [if_neg (by simp; omega)]
    simp [hne, hstrip]

/-- C9, witness: the theorem applied at the concrete single-sentence text
with the source's default parameters. -/
theorem chunker_empty_and_single_sentence_witness :
    chunk_text_by_sentences "" 1000 100 = []
    ∧ chunk_text_by_sentences "Hello world" 1000 100 = ["Hello world"] :=
  chunker_empty_and_single_sentence 1000 100 "Hello world"
    (by decide) (by decide) (by decide) (by decide)

end Helpers
